import Mathlib

/-!
Shallow embedding of the remote-file-transfer server in `src/assignment4.cpp`
(the networked branch, `NO_NETWORK` undefined).

Bytes on the wire are modelled as `Char` (each wire byte is one character).
A connection is its remaining inbound byte stream, the bytes sent so far,
and a send budget: each send syscall group (`sendAll` / `sendLine`) succeeds
while the budget is positive and fails once it reaches zero, modelling a
fatal write error partway through a session.  The served directory is a flat
association list from filenames to entries (regular file with content,
directory, or other), mirroring `fs::directory_iterator` over a flat
namespace.
-/

/-- One wire byte, modelled as a character. -/
abbrev Byte := Char

/-- A directory entry of the served directory: a regular file with its
content, a subdirectory, or anything else (symlink, device, ...). -/
inductive Entry where
  | file (content : List Byte)
  | dir
  | other
deriving DecidableEq

/-- The served directory: a flat association list from filename to entry,
in directory-iteration order. -/
abbrev FS := List (List Byte × Entry)

/-- Lookup of a name in the served directory. -/
def fsLookup : FS → List Byte → Option Entry
  | [], _ => none
  | (n, e) :: rest, name => if n = name then some e else fsLookup rest name

/-- Create or truncate an entry (what a successful `std::ofstream` open plus
writes amounts to): replace in place when present, append otherwise. -/
def fsSet : FS → List Byte → Entry → FS
  | [], name, e => [(name, e)]
  | (n, e0) :: rest, name, e =>
      if n = name then (name, e) :: rest else (n, e0) :: fsSet rest name e

/-- Whether `std::ofstream ofs(filep, binary)` succeeds: opening for write
fails when the path names an existing directory and succeeds otherwise. -/
def openWriteOk (fs : FS) (filename : List Byte) : Bool :=
  match fsLookup fs filename with
  | some Entry.dir => false
  | _ => true

/-- One connection endpoint as the server sees it: the unread inbound
bytes, the bytes sent so far, and the remaining number of send calls that
will succeed before the connection reports a fatal write error. -/
structure Conn where
  input : List Byte
  output : List Byte
  budget : Nat
deriving DecidableEq

/-- Whether the next send call on this connection will succeed. -/
def canSend (c : Conn) : Bool := decide (0 < c.budget)

/-- Model of `sendAll(sock, buf, len)`: appends the bytes to the outbound stream and
consumes one unit of budget when sending still works; a failed send leaves
the connection unchanged (the C++ helper returns -1). -/
def sendAllC (c : Conn) (bytes : List Byte) : Conn :=
  match c.budget with
  | 0 => c
  | b + 1 => { input := c.input, output := c.output ++ bytes, budget := b }

/-- Model of `sendLine(sock, line)`: sends the line followed by a single newline. -/
def sendLineC (c : Conn) (s : List Byte) : Conn :=
  sendAllC c (s ++ ['\n'])

/-- Model of `readLine(sock, outLine)`: consume bytes up to and including the first
newline; every carriage return is skipped (the C++ loop pushes a byte only
when `ch != '\r'`); return the accumulated line and the rest of the stream,
or `none` on end of stream before any newline. -/
def readLine : List Byte → Option (List Byte × List Byte)
  | [] => none
  | c :: rest =>
      if c = '\n' then some ([], rest)
      else if c = '\r' then readLine rest
      else
        match readLine rest with
        | none => none
        | some (line, rem) => some (c :: line, rem)

/-- Model of `recvExact(sock, buf, n)`: read exactly `n` bytes; fails (returns -1
after consuming whatever was left) when the stream ends first. -/
def recvExact (input : List Byte) (n : Nat) : Option (List Byte × List Byte) :=
  if n ≤ input.length then some (input.take n, input.drop n) else none

/-- Helper for `isSafeFilename(fn)` (its `fn.find("..")` test): reject the empty name, any name holding a forward
or back slash, and any name holding the two-character substring "..". -/
def containsDotDot : List Byte → Bool
  | [] => false
  | [_] => false
  | c1 :: c2 :: rest => (c1 = '.' && c2 = '.') || containsDotDot (c2 :: rest)

/-- The filename guard of the server (`isSafeFilename` in the source). -/
def isSafeFilename (fn : List Byte) : Bool :=
  if fn = [] then false
  else if fn.contains '/' then false
  else if fn.contains '\\' then false
  else if containsDotDot fn then false
  else true

/-- Whether `pre` is an initial segment of `s` (`line.rfind(pre, 0) == 0`). -/
def startsWith : List Byte → List Byte → Bool
  | [], _ => true
  | _ :: _, [] => false
  | p :: ps, c :: cs => p = c && startsWith ps cs

/-- A character in the "C" locale's `isspace` class. -/
def isSpaceCh (c : Char) : Bool :=
  c = ' ' || c = '\t' || c = '\n' || c = Char.ofNat 11 || c = Char.ofNat 12 || c = '\r'

/-- A decimal digit. -/
def isDigitCh (c : Char) : Bool :=
  decide ('0' ≤ c) && decide (c ≤ '9')

/-- Value of a digit string read left to right. -/
def digitsVal (l : List Char) : Nat :=
  l.foldl (fun a c => 10 * a + (c.toNat - Char.toNat '0')) 0

/-- Model of `std::stoull(s)` at base 10: skip leading whitespace, accept one
optional sign, then at least one decimal digit (trailing garbage ignored);
`none` models a thrown `invalid_argument` (no digits) or `out_of_range`
(magnitude beyond `unsigned long long`); a negative input wraps modulo
2^64 as `strtoull` does. -/
def stoull (s : List Char) : Option Nat :=
  let s1 := s.dropWhile isSpaceCh
  let signed : Bool × List Char :=
    match s1 with
    | '-' :: t => (true, t)
    | '+' :: t => (false, t)
    | _ => (false, s1)
  let ds := signed.2.takeWhile isDigitCh
  if ds.isEmpty then none
  else
    let v := digitsVal ds
    if decide (v < 2 ^ 64) then
      some (if signed.1 then (2 ^ 64 - v) % 2 ^ 64 else v)
    else none

/-- One decimal digit character. -/
def digitChar (n : Nat) : Char := Char.ofNat (Char.toNat '0' + n)

/-- Model of `std::to_string` on an unsigned value: decimal digits, most significant
first. -/
def natToChars (n : Nat) : List Char :=
  if n < 10 then [digitChar n]
  else natToChars (n / 10) ++ [digitChar (n % 10)]
termination_by n
decreasing_by
  rename_i h
  exact Nat.div_lt_self (by omega) (by omega)

/-- The GET payload loop of `handle_client`: stream the file contents in
chunks of `BUFFER_SIZE` (8192) bytes; a failed chunk send breaks the inner
loop only, the session then returns to awaiting the next command. -/
def sendChunks (c : Conn) (data : List Byte) : Conn :=
  if h : data = [] then c
  else
    let chunk := data.take 8192
    if canSend c then sendChunks (sendAllC c chunk) (data.drop 8192)
    else sendAllC c chunk
termination_by data.length
decreasing_by
  have hp : 0 < data.length := List.length_pos.mpr h
  simp only [List.length_drop]
  omega

/-- The PUT receive loop of `handle_client`: pull the declared byte count
from the stream in chunks of `BUFFER_SIZE` (8192) bytes, appending each
complete chunk to the destination file; a short read raises the error flag
with the file holding the chunks already written, and leaves the stream
exhausted.  Returns (bytes written, remaining stream, error flag). -/
def recvToFile (input : List Byte) (remaining : Nat) : List Byte × List Byte × Bool :=
  if remaining = 0 then ([], input, false)
  else
    let chunk := min remaining 8192
    match recvExact input chunk with
    | none => ([], [], true)
    | some (data, rest) =>
        let out := recvToFile rest (remaining - chunk)
        (data ++ out.1, out.2.1, out.2.2)
termination_by remaining
decreasing_by
  omega

/-- The drain loop on the failed-create path of PUT: read and discard the
declared byte count in chunks of 4096 bytes, stopping early if the stream
ends; returns the remaining stream. -/
def drainStream (input : List Byte) (remaining : Nat) : List Byte :=
  if remaining = 0 then input
  else
    let chunk := min remaining 4096
    match recvExact input chunk with
    | none => []
    | some (_, rest) => drainStream rest (remaining - chunk)
termination_by remaining
decreasing_by
  omega

/-- The kind column of a LIST line for one directory entry. -/
def kindStr : Entry → List Byte
  | Entry.file _ => String.toList "file"
  | Entry.dir => String.toList "dir"
  | Entry.other => String.toList "other"

/-- The LIST body: one `<name>\t<kind>\n` line per entry, in directory
order. -/
def listingOf (fs : FS) : List Byte :=
  fs.foldr (fun e acc => e.1 ++ '\t' :: (kindStr e.2 ++ '\n' :: acc)) []

/-- Result of handling one command line: return to the await-command loop
or break out of it. -/
inductive CmdResult where
  | cont (fs : FS) (c : Conn)
  | stop (fs : FS) (c : Conn)
deriving DecidableEq

/-- The LIST branch of `handle_client`: send `OK`, the decimal body length,
then the body bytes when nonempty; a failed send of any of the three breaks
the session loop. -/
def doList (fs : FS) (c : Conn) : CmdResult :=
  let listing := listingOf fs
  let ok1 := canSend c
  let c1 := sendLineC c (String.toList "OK")
  if !ok1 then CmdResult.stop fs c1
  else
    let ok2 := canSend c1
    let c2 := sendLineC c1 (natToChars listing.length)
    if !ok2 then CmdResult.stop fs c2
    else
      if listing.isEmpty then CmdResult.cont fs c2
      else
        let ok3 := canSend c2
        let c3 := sendAllC c2 listing
        if !ok3 then CmdResult.stop fs c3 else CmdResult.cont fs c3

/-- The GET branch of `handle_client`.  An unsafe name or a target that is
missing or not a regular file gets `ERR` plus a message and the loop
continues; otherwise `OK`, the exact size and the chunked contents follow
(a regular file present in the directory model always opens, so the
`Failed to open file` path of the source has no inhabitant here).  All
send results on this branch are ignored by the source. -/
def doGet (filename : List Byte) (fs : FS) (c : Conn) : CmdResult :=
  if !isSafeFilename filename then
    CmdResult.cont fs (sendLineC (sendLineC c (String.toList "ERR")) (String.toList "Invalid filename"))
  else
    match fsLookup fs filename with
    | some (Entry.file content) =>
        let c1 := sendLineC c (String.toList "OK")
        let c2 := sendLineC c1 (natToChars content.length)
        CmdResult.cont fs (sendChunks c2 content)
    | _ =>
        CmdResult.cont fs (sendLineC (sendLineC c (String.toList "ERR")) (String.toList "File not found"))

/-- The PUT branch of `handle_client`: reject an unsafe name with `ERR`
and continue at once (nothing further is read); otherwise read the size
line (end of stream breaks the session loop), reject an unparsable size
with `ERR` and continue; otherwise create or truncate the file, draining
the declared count when creation fails, and copy exactly the declared
count into it, answering `OK` or `ERR` + `Transfer error`. -/
def doPut (filename : List Byte) (fs : FS) (c : Conn) : CmdResult :=
  if !isSafeFilename filename then
    CmdResult.cont fs (sendLineC (sendLineC c (String.toList "ERR")) (String.toList "Invalid filename"))
  else
    match readLine c.input with
    | none => CmdResult.stop fs { c with input := [] }
    | some (sizeLine, rest) =>
        match stoull sizeLine with
        | none =>
            CmdResult.cont fs
              (sendLineC (sendLineC { c with input := rest } (String.toList "ERR"))
                (String.toList "Invalid size header"))
        | some size =>
            if openWriteOk fs filename then
              let out := recvToFile rest size
              let fs1 := fsSet fs filename (Entry.file out.1)
              let c1 : Conn := { input := out.2.1, output := c.output, budget := c.budget }
              if out.2.2 then
                CmdResult.cont fs1
                  (sendLineC (sendLineC c1 (String.toList "ERR")) (String.toList "Transfer error"))
              else
                CmdResult.cont fs1 (sendLineC c1 (String.toList "OK"))
            else
              let c1 := sendLineC (sendLineC { c with input := rest } (String.toList "ERR"))
                (String.toList "Failed to create file")
              CmdResult.cont fs { c1 with input := drainStream rest size }

/-- Dispatch of one received command line, by prefix in source order:
`LIST`, `GET `, `PUT `, `QUIT`, else `ERR` + `Unknown command`. -/
def handleCommand (line : List Byte) (fs : FS) (c : Conn) : CmdResult :=
  if startsWith (String.toList "LIST") line then doList fs c
  else if startsWith (String.toList "GET ") line then doGet (line.drop 4) fs c
  else if startsWith (String.toList "PUT ") line then doPut (line.drop 4) fs c
  else if startsWith (String.toList "QUIT") line then CmdResult.stop fs c
  else
    CmdResult.cont fs (sendLineC (sendLineC c (String.toList "ERR")) (String.toList "Unknown command"))


/-- The connection as left by one command's handling. -/
def CmdResult.conn : CmdResult → Conn
  | CmdResult.cont _ c => c
  | CmdResult.stop _ c => c

/-- The directory as left by one command's handling. -/
def CmdResult.dirFs : CmdResult → FS
  | CmdResult.cont fs _ => fs
  | CmdResult.stop fs _ => fs

theorem sendAllC_input (c : Conn) (b : List Byte) : (sendAllC c b).input = c.input := by
  unfold sendAllC
  split <;> rfl

theorem sendLineC_input (c : Conn) (s : List Byte) : (sendLineC c s).input = c.input := by
  unfold sendLineC
  exact sendAllC_input c (s ++ ['\n'])

theorem sendChunks_input_aux : ∀ (n : Nat) (data : List Byte) (c : Conn),
    data.length ≤ n → (sendChunks c data).input = c.input := by
  intro n
  induction n with
  | zero =>
      intro data c hle
      have hnil : data = [] := List.eq_nil_of_length_eq_zero (Nat.le_zero.mp hle)
      rw [sendChunks]
      simp [hnil]
  | succ n ih =>
      intro data c hle
      rw [sendChunks]
      by_cases h : data = []
      · simp [h]
      · simp only [h, dite_false]
        by_cases hcs : canSend c = true
        · have hd : (data.drop 8192).length ≤ n := by
            have hp : 0 < data.length := List.length_pos.mpr h
            simp only [List.length_drop]
            omega
          simp only [hcs, if_true]
          rw [ih (data.drop 8192) _ hd, sendAllC_input]
        · simp only [hcs, if_false]
          exact sendAllC_input c _

theorem sendChunks_input (c : Conn) (data : List Byte) : (sendChunks c data).input = c.input :=
  sendChunks_input_aux data.length data c (Nat.le_refl _)

theorem recvExact_some {input data rest : List Byte} {n : Nat}
    (h : recvExact input n = some (data, rest)) :
    data = input.take n ∧ rest = input.drop n ∧ n ≤ input.length := by
  unfold recvExact at h
  split at h
  · rename_i hle
    simp only [Option.some.injEq, Prod.mk.injEq] at h
    exact ⟨h.1.symm, h.2.symm, hle⟩
  · exact absurd h (by simp)

theorem recvToFile_input_le_aux : ∀ (n r : Nat) (input : List Byte),
    r ≤ n → (recvToFile input r).2.1.length ≤ input.length := by
  intro n
  induction n with
  | zero =>
      intro r input hle
      have h0 : r = 0 := Nat.le_zero.mp hle
      rw [recvToFile]
      simp [h0]
  | succ n ih =>
      intro r input hle
      rw [recvToFile]
      by_cases h : r = 0
      · simp [h]
      · simp only [h, if_false]
        cases hrecv : recvExact input (min r 8192) with
        | none => simp [hrecv]
        | some p =>
            obtain ⟨data, rest⟩ := p
            simp only [hrecv]
            obtain ⟨-, hrest, -⟩ := recvExact_some hrecv
            have hle2 : r - min r 8192 ≤ n := by omega
            calc (recvToFile rest (r - min r 8192)).2.1.length
                ≤ rest.length := ih _ rest hle2
              _ ≤ input.length := by rw [hrest]; simp

theorem recvToFile_input_le (input : List Byte) (r : Nat) :
    (recvToFile input r).2.1.length ≤ input.length :=
  recvToFile_input_le_aux r r input (Nat.le_refl _)

theorem drainStream_length_le_aux : ∀ (n r : Nat) (input : List Byte),
    r ≤ n → (drainStream input r).length ≤ input.length := by
  intro n
  induction n with
  | zero =>
      intro r input hle
      have h0 : r = 0 := Nat.le_zero.mp hle
      rw [drainStream]
      simp [h0]
  | succ n ih =>
      intro r input hle
      rw [drainStream]
      by_cases h : r = 0
      · simp [h]
      · simp only [h, if_false]
        cases hrecv : recvExact input (min r 4096) with
        | none => simp [hrecv]
        | some p =>
            obtain ⟨data, rest⟩ := p
            simp only [hrecv]
            obtain ⟨-, hrest, -⟩ := recvExact_some hrecv
            have hle2 : r - min r 4096 ≤ n := by omega
            calc (drainStream rest (r - min r 4096)).length
                ≤ rest.length := ih _ rest hle2
              _ ≤ input.length := by rw [hrest]; simp

theorem drainStream_length_le (input : List Byte) (r : Nat) :
    (drainStream input r).length ≤ input.length :=
  drainStream_length_le_aux r r input (Nat.le_refl _)

theorem readLine_rest_lt : ∀ {input line rest : List Byte},
    readLine input = some (line, rest) → rest.length < input.length := by
  intro input
  induction input with
  | nil => intro line rest h; simp [readLine] at h
  | cons c cs ih =>
      intro line rest h
      rw [readLine] at h
      split at h
      · simp only [Option.some.injEq, Prod.mk.injEq] at h
        rw [← h.2]
        simp
      · split at h
        · exact Nat.lt_trans (ih h) (by simp)
        · cases hm : readLine cs with
          | none => rw [hm] at h; simp at h
          | some p =>
              rw [hm] at h
              obtain ⟨l0, r0⟩ := p
              simp only [Option.some.injEq, Prod.mk.injEq] at h
              rw [← h.2]
              exact Nat.lt_trans (ih hm) (by simp)

theorem doList_conn_input (fs : FS) (c : Conn) : (doList fs c).conn.input = c.input := by
  simp only [doList]
  split_ifs <;> simp [CmdResult.conn, sendLineC_input, sendAllC_input]

theorem doGet_conn_input (filename : List Byte) (fs : FS) (c : Conn) :
    (doGet filename fs c).conn.input = c.input := by
  simp only [doGet]
  by_cases hsafe : isSafeFilename filename = true
  · simp only [hsafe, Bool.not_true, Bool.false_eq_true, if_false]
    cases hlk : fsLookup fs filename with
    | none => simp [hlk, CmdResult.conn, sendLineC_input]
    | some e =>
        cases e <;> simp [hlk, CmdResult.conn, sendLineC_input, sendChunks_input]
  · rw [Bool.not_eq_true] at hsafe
    simp [hsafe, CmdResult.conn, sendLineC_input]

theorem doPut_conn_input_le (filename : List Byte) (fs : FS) (c : Conn) :
    (doPut filename fs c).conn.input.length ≤ c.input.length := by
  simp only [doPut]
  by_cases hsafe : isSafeFilename filename = true
  · simp only [hsafe, Bool.not_true, Bool.false_eq_true, if_false]
    cases hread : readLine c.input with
    | none => simp [hread, CmdResult.conn]
    | some p =>
        obtain ⟨sizeLine, rest⟩ := p
        have hlt := readLine_rest_lt hread
        simp only [hread]
        cases hsz : stoull sizeLine with
        | none =>
            simp only [hsz, CmdResult.conn, sendLineC_input]
            exact Nat.le_of_lt hlt
        | some size =>
            simp only [hsz]
            by_cases hop : openWriteOk fs filename = true
            · simp only [hop, if_true]
              by_cases herr : (recvToFile rest size).2.2 = true
              · simp only [herr, if_true, CmdResult.conn, sendLineC_input]
                exact Nat.le_of_lt (Nat.lt_of_le_of_lt (recvToFile_input_le rest size) hlt)
              · rw [Bool.not_eq_true] at herr
                simp only [herr, Bool.false_eq_true, if_false, CmdResult.conn, sendLineC_input]
                exact Nat.le_of_lt (Nat.lt_of_le_of_lt (recvToFile_input_le rest size) hlt)
            · rw [Bool.not_eq_true] at hop
              simp only [hop, Bool.false_eq_true, if_false, CmdResult.conn]
              exact Nat.le_of_lt (Nat.lt_of_le_of_lt (drainStream_length_le rest size) hlt)
  · rw [Bool.not_eq_true] at hsafe
    simp [hsafe, CmdResult.conn, sendLineC_input]

theorem handleCommand_conn_input_le (line : List Byte) (fs : FS) (c : Conn) :
    (handleCommand line fs c).conn.input.length ≤ c.input.length := by
  unfold handleCommand
  split
  · rw [doList_conn_input]
  · split
    · rw [doGet_conn_input]
    · split
      · exact doPut_conn_input_le _ fs c
      · split
        · simp [CmdResult.conn]
        · simp [CmdResult.conn, sendLineC_input]

/-- The per-connection loop of `handle_client`: read a command line, handle
it, repeat; the loop ends on a read failure (end of stream), an explicit
`QUIT`, or a fatal send failure inside LIST or PUT handling. -/
def session (fs : FS) (c : Conn) : FS × Conn :=
  match hr : readLine c.input with
  | none => (fs, { c with input := [] })
  | some (line, rest) =>
      match hc : handleCommand line fs { c with input := rest } with
      | CmdResult.stop fs1 c1 => (fs1, c1)
      | CmdResult.cont fs1 c1 => session fs1 c1
termination_by c.input.length
decreasing_by
  have h1 : c1.input.length ≤ rest.length := by
    have := handleCommand_conn_input_le line fs { c with input := rest }
    rw [hc] at this
    exact this
  exact Nat.lt_of_le_of_lt h1 (readLine_rest_lt hr)

/-- Outcome of one whole client session. -/
structure SessionResult where
  fs : FS
  conn : Conn
  closed : Bool
deriving DecidableEq

/-- Model of `handle_client(client_sock, serve_dir)`: run the session loop, then
`close(client_sock)` — the close is unconditional, after every way out of
the loop.  (The best-effort `create_directories` at entry is outside the
directory model, whose states are directories that already exist.) -/
def handle_client (fs : FS) (c : Conn) : SessionResult :=
  let out := session fs c
  { fs := out.1, conn := out.2, closed := true }

theorem sendLineC_eq (c : Conn) (s : List Byte) (h : 1 ≤ c.budget) :
    sendLineC c s = ⟨c.input, c.output ++ (s ++ ['\n']), c.budget - 1⟩ := by
  obtain ⟨i, o, b⟩ := c
  cases b with
  | zero => simp at h
  | succ n => simp [sendLineC, sendAllC]

theorem sendLineC2_eq (c : Conn) (s t : List Byte) (h : 2 ≤ c.budget) :
    sendLineC (sendLineC c s) t =
      ⟨c.input, c.output ++ (s ++ '\n' :: (t ++ ['\n'])), c.budget - 2⟩ := by
  rw [sendLineC_eq c s (by omega), sendLineC_eq _ t (by simp; omega)]
  simp
  omega

theorem string_put : String.toList "PUT " = ['P', 'U', 'T', ' '] := rfl

theorem string_get : String.toList "GET " = ['G', 'E', 'T', ' '] := rfl

theorem handleCommand_put (fn : List Byte) (fs : FS) (c : Conn) :
    handleCommand (String.toList "PUT " ++ fn) fs c = doPut fn fs c := by
  show handleCommand ('P' :: 'U' :: 'T' :: ' ' :: fn) fs c = doPut fn fs c
  unfold handleCommand
  simp [startsWith]

theorem handleCommand_get (fn : List Byte) (fs : FS) (c : Conn) :
    handleCommand (String.toList "GET " ++ fn) fs c = doGet fn fs c := by
  show handleCommand ('G' :: 'E' :: 'T' :: ' ' :: fn) fs c = doGet fn fs c
  unfold handleCommand
  simp [startsWith]

theorem containsDotDot_iff : ∀ (l : List Byte),
    containsDotDot l = true ↔ ∃ a b, l = a ++ '.' :: '.' :: b := by
  intro l
  induction l with
  | nil =>
      rw [containsDotDot]
      constructor
      · intro h; exact absurd h (by simp)
      · rintro ⟨a, b, hab⟩
        exact absurd hab (by simp)
  | cons c1 rest ih =>
      cases rest with
      | nil =>
          rw [containsDotDot]
          constructor
          · intro h; exact absurd h (by simp)
          · rintro ⟨a, b, hab⟩
            have := congrArg List.length hab
            simp at this
            omega
      | cons c2 rest2 =>
          rw [containsDotDot]
          constructor
          · intro h
            rcases (Bool.or_eq_true _ _).mp h with h' | h'
            · rcases (Bool.and_eq_true _ _).mp h' with ⟨ha, hb⟩
              refine ⟨[], rest2, ?_⟩
              simp only [decide_eq_true_eq] at ha hb
              simp [ha, hb]
            · obtain ⟨a, b, hab⟩ := ih.mp h'
              exact ⟨c1 :: a, b, by simp [hab]⟩
          · rintro ⟨a, b, hab⟩
            cases a with
            | nil =>
                simp only [List.nil_append, List.cons.injEq] at hab
                simp [hab.1, hab.2.1]
            | cons x a' =>
                simp only [List.cons_append, List.cons.injEq] at hab
                have hr : containsDotDot (c2 :: rest2) = true := ih.mpr ⟨a', b, hab.2⟩
                simp [hr]

theorem isSafeFilename_false_iff (fn : List Byte) :
    isSafeFilename fn = false ↔
      fn = [] ∨ '/' ∈ fn ∨ '\\' ∈ fn ∨ ∃ a b, fn = a ++ '.' :: '.' :: b := by
  unfold isSafeFilename
  split_ifs with h1 h2 h3 h4
  · simp [h1]
  · simp only [eq_self_iff_true, true_iff]
    right; left
    simpa using h2
  · simp only [eq_self_iff_true, true_iff]
    right; right; left
    simpa using h3
  · simp only [eq_self_iff_true, true_iff]
    right; right; right
    exact (containsDotDot_iff fn).mp h4
  · constructor
    · intro h; exact absurd h (by simp)
    · rintro (h | h | h | h)
      · exact absurd h h1
      · exact h2 (by simpa using h)
      · exact h3 (by simpa using h)
      · exact h4 ((containsDotDot_iff fn).mpr h)

/-- C1: the filename guard returns false exactly when the name is empty,
holds a forward slash, holds a backslash, or holds the two-character
substring ".."; every non-empty name free of all of those gets true. -/
theorem claim_C1_filename_guard (fn : List Byte) :
    isSafeFilename fn = false ↔
      fn = [] ∨ '/' ∈ fn ∨ '\\' ∈ fn ∨ ∃ a b, fn = a ++ '.' :: '.' :: b :=
  isSafeFilename_false_iff fn

theorem readLine_none_iff (input : List Byte) : readLine input = none ↔ '\n' ∉ input := by
  induction input with
  | nil => simp [readLine]
  | cons c cs ih =>
      rw [readLine]
      by_cases hc : c = '\n'
      · subst hc
        simp
      · rw [if_neg hc]
        by_cases hr : c = '\r'
        · rw [if_pos hr]
          rw [ih]
          constructor
          · intro hn hor
            rcases List.mem_cons.mp hor with h1 | h1
            · exact hc h1.symm
            · exact hn h1
          · intro hn hm
            exact hn (List.mem_cons_of_mem _ hm)
        · rw [if_neg hr]
          cases hm : readLine cs with
          | none =>
              have hcs : '\n' ∉ cs := (ih).mp hm
              simp only [hm]
              constructor
              · intro _ hor
                rcases List.mem_cons.mp hor with h1 | h1
                · exact hc h1.symm
                · exact hcs h1
              · intro _
                trivial
          | some p =>
              obtain ⟨l0, r0⟩ := p
              have hcs : ¬('\n' ∉ cs) := fun hn => by
                rw [ih.mpr hn] at hm
                exact absurd hm (by simp)
              simp only [hm]
              constructor
              · intro habs
                exact absurd habs (by simp)
              · intro hn
                exact absurd (fun hm2 => hn (List.mem_cons_of_mem _ hm2)) hcs

theorem readLine_append (pre rest : List Byte) (h : '\n' ∉ pre) :
    readLine (pre ++ '\n' :: rest) =
      some (pre.filter (fun c => decide (c ≠ '\r')), rest) := by
  induction pre with
  | nil => simp [readLine]
  | cons c cs ih =>
      have hc : ¬(c = '\n') := fun he => h (by simp [he])
      have hcs : '\n' ∉ cs := fun hm => h (List.mem_cons_of_mem _ hm)
      rw [List.cons_append, readLine, if_neg hc]
      by_cases hr : c = '\r'
      · rw [if_pos hr, ih hcs]
        subst hr
        simp [List.filter_cons]
      · rw [if_neg hr, ih hcs]
        simp [List.filter_cons, hr]

theorem readLine_some_decomp : ∀ {input line rest : List Byte},
    readLine input = some (line, rest) →
      ∃ pre, '\n' ∉ pre ∧ input = pre ++ '\n' :: rest ∧
        line = pre.filter (fun c => decide (c ≠ '\r')) := by
  intro input
  induction input with
  | nil => intro line rest h; simp [readLine] at h
  | cons c cs ih =>
      intro line rest h
      rw [readLine] at h
      by_cases hc : c = '\n'
      · rw [if_pos hc] at h
        simp only [Option.some.injEq, Prod.mk.injEq] at h
        refine ⟨[], by simp, ?_, ?_⟩
        · rw [hc, h.2]
          simp
        · rw [← h.1]
          simp
      · rw [if_neg hc] at h
        by_cases hr : c = '\r'
        · rw [if_pos hr] at h
          obtain ⟨pre, hp1, hp2, hp3⟩ := ih h
          refine ⟨c :: pre, ?_, by simp [hp2], ?_⟩
          · intro hm
            rcases List.mem_cons.mp hm with h1 | h1
            · exact hc h1.symm
            · exact hp1 h1
          · rw [hp3]
            subst hr
            simp [List.filter_cons]
        · rw [if_neg hr] at h
          cases hm : readLine cs with
          | none => rw [hm] at h; exact absurd h (by simp)
          | some p =>
              obtain ⟨l0, r0⟩ := p
              rw [hm] at h
              simp only [Option.some.injEq, Prod.mk.injEq] at h
              obtain ⟨pre, hp1, hp2, hp3⟩ := ih hm
              refine ⟨c :: pre, ?_, ?_, ?_⟩
              · intro hmem
                rcases List.mem_cons.mp hmem with h1 | h1
                · exact hc h1.symm
                · exact hp1 h1
              · rw [← h.2]
                simp [hp2]
              · rw [← h.1, hp3]
                simp [List.filter_cons, hr]

/-- C3 (amended): `readLine` accumulates the bytes before the first
newline with every carriage return removed — wherever it occurs, not only
immediately before the newline — consumes through that newline, and
returns failure exactly when the stream ends with no newline seen. -/
theorem claim_C3_readLine_filters_cr (input line rest : List Byte) :
    (readLine input = some (line, rest) ↔
       ∃ pre, '\n' ∉ pre ∧ input = pre ++ '\n' :: rest ∧
         line = pre.filter (fun c => decide (c ≠ '\r'))) ∧
    (readLine input = none ↔ '\n' ∉ input) := by
  refine ⟨⟨readLine_some_decomp, ?_⟩, readLine_none_iff input⟩
  rintro ⟨pre, h1, h2, h3⟩
  rw [h2, readLine_append pre rest h1, h3]

/-- C3 counterexample: on the byte sequence "a\rb\n" followed by "rest",
`readLine` returns the line "ab" — the carriage return in the middle of
the line has been removed, where the claim requires it to stay ("a\rb"). -/
theorem claim_C3_counterexample :
    readLine (String.toList "a\rb\nrest") =
        some (String.toList "ab", String.toList "rest") ∧
      String.toList "ab" ≠ String.toList "a\rb" :=
  ⟨rfl, by decide⟩

theorem doPut_unsafe (fn : List Byte) (fs : FS) (c : Conn)
    (hbad : isSafeFilename fn = false) :
    doPut fn fs c =
      CmdResult.cont fs
        (sendLineC (sendLineC c (String.toList "ERR")) (String.toList "Invalid filename")) := by
  unfold doPut
  simp [hbad]

/-- C2 (amended): a PUT whose filename the guard rejects is answered with
`ERR` + `Invalid filename` and the engine returns directly to
`AWAIT_COMMAND`: the size line is never read and no payload byte is
drained — the inbound stream is left exactly as it was, so the declared
size line (not the next command) is what the next read returns. -/
theorem claim_C2_reject_put_no_drain (fn : List Byte) (fs : FS) (c : Conn)
    (hbad : isSafeFilename fn = false) (hb : 2 ≤ c.budget) :
    handleCommand (String.toList "PUT " ++ fn) fs c =
      CmdResult.cont fs
        ⟨c.input, c.output ++ String.toList "ERR\nInvalid filename\n", c.budget - 2⟩ := by
  rw [handleCommand_put, doPut_unsafe fn fs c hbad, sendLineC2_eq c _ _ hb]
  have hout : String.toList "ERR" ++ '\n' :: (String.toList "Invalid filename" ++ ['\n']) =
      String.toList "ERR\nInvalid filename\n" := by decide
  rw [hout]

/-- C2 witness: concrete instance of the amended theorem. -/
theorem claim_C2_witness :
    isSafeFilename (String.toList "..") = false ∧ 2 ≤ 2 ∧
      handleCommand (String.toList "PUT " ++ String.toList "..") []
          ⟨String.toList "9\nABCDEFGHI", [], 2⟩ =
        CmdResult.cont []
          ⟨String.toList "9\nABCDEFGHI", String.toList "ERR\nInvalid filename\n", 0⟩ :=
  ⟨by decide, by decide,
    claim_C2_reject_put_no_drain (String.toList "..") []
      ⟨String.toList "9\nABCDEFGHI", [], 2⟩ (by decide) (by decide)⟩

/-- C2 counterexample: after `PUT ../x` with stream "5\nHELLOLIST\n"
(size line 5, five payload bytes, then a LIST command), the server leaves
the whole stream unread — the next line read off it is the size line "5",
not the next command "LIST", refuting the claimed draining behavior. -/
theorem claim_C2_counterexample :
    handleCommand (String.toList "PUT ../x") []
        ⟨String.toList "5\nHELLOLIST\n", [], 100⟩ =
      CmdResult.cont []
        ⟨String.toList "5\nHELLOLIST\n", String.toList "ERR\nInvalid filename\n", 98⟩ ∧
      readLine (String.toList "5\nHELLOLIST\n") =
        some (String.toList "5", String.toList "HELLOLIST\n") ∧
      String.toList "5" ≠ String.toList "LIST" := by
  refine ⟨by decide, rfl, by decide⟩

theorem doGet_missing (fn : List Byte) (fs : FS) (c : Conn)
    (hsafe : isSafeFilename fn = true)
    (hmiss : ∀ content, fsLookup fs fn ≠ some (Entry.file content)) :
    doGet fn fs c =
      CmdResult.cont fs
        (sendLineC (sendLineC c (String.toList "ERR")) (String.toList "File not found")) := by
  unfold doGet
  cases hlk : fsLookup fs fn with
  | none => simp [hsafe, hlk]
  | some e =>
      cases e with
      | file content => exact absurd hlk (hmiss content)
      | dir => simp [hsafe, hlk]
      | other => simp [hsafe, hlk]

/-- C5: a GET whose filename passes the guard but names no existing
regular file is answered with the two lines `ERR` / `File not found`, no
payload follows, the directory and the inbound stream are untouched, and
the handling returns to the await-command loop (the connection stays
open for further commands). -/
theorem claim_C5_get_not_found (fn : List Byte) (fs : FS) (c : Conn)
    (hsafe : isSafeFilename fn = true)
    (hmiss : ∀ content, fsLookup fs fn ≠ some (Entry.file content))
    (hb : 2 ≤ c.budget) :
    handleCommand (String.toList "GET " ++ fn) fs c =
      CmdResult.cont fs
        ⟨c.input, c.output ++ String.toList "ERR\nFile not found\n", c.budget - 2⟩ := by
  rw [handleCommand_get, doGet_missing fn fs c hsafe hmiss, sendLineC2_eq c _ _ hb]
  have hout : String.toList "ERR" ++ '\n' :: (String.toList "File not found" ++ ['\n']) =
      String.toList "ERR\nFile not found\n" := by decide
  rw [hout]

/-- C5 witness: `GET missing.txt` against the empty directory. -/
theorem claim_C5_witness :
    isSafeFilename (String.toList "missing.txt") = true ∧
      handleCommand (String.toList "GET " ++ String.toList "missing.txt") []
          ⟨String.toList "LIST\n", [], 2⟩ =
        CmdResult.cont []
          ⟨String.toList "LIST\n", String.toList "ERR\nFile not found\n", 0⟩ :=
  ⟨by decide,
    claim_C5_get_not_found (String.toList "missing.txt") [] ⟨String.toList "LIST\n", [], 2⟩
      (by decide) (fun content => by simp [fsLookup]) (by decide)⟩

/-- C6: a PUT with a safe filename whose size line does not parse as a
number is answered `ERR` + `Invalid size header`; nothing beyond the size
line is consumed from the stream, the directory is unchanged (no file is
created or modified), and the loop continues with the next command. -/
theorem claim_C6_bad_size_line (fn sizeLine rest : List Byte) (fs : FS) (c : Conn)
    (hsafe : isSafeFilename fn = true)
    (hline : readLine c.input = some (sizeLine, rest))
    (hbad : stoull sizeLine = none)
    (hb : 2 ≤ c.budget) :
    handleCommand (String.toList "PUT " ++ fn) fs c =
      CmdResult.cont fs
        ⟨rest, c.output ++ String.toList "ERR\nInvalid size header\n", c.budget - 2⟩ := by
  rw [handleCommand_put]
  unfold doPut
  simp only [hsafe, Bool.not_true, Bool.false_eq_true, if_false, hline, hbad]
  rw [sendLineC2_eq _ _ _ (by simpa using hb)]
  have hout : String.toList "ERR" ++ '\n' :: (String.toList "Invalid size header" ++ ['\n']) =
      String.toList "ERR\nInvalid size header\n" := by decide
  simp [hout]

/-- C6 witness: `PUT f.txt` with size line "xyz". -/
theorem claim_C6_witness :
    isSafeFilename (String.toList "f.txt") = true ∧
      stoull (String.toList "xyz") = none ∧
      handleCommand (String.toList "PUT " ++ String.toList "f.txt") []
          ⟨String.toList "xyz\nQUIT\n", [], 2⟩ =
        CmdResult.cont []
          ⟨String.toList "QUIT\n", String.toList "ERR\nInvalid size header\n", 0⟩ :=
  ⟨by decide, by decide,
    claim_C6_bad_size_line (String.toList "f.txt") (String.toList "xyz")
      (String.toList "QUIT\n") [] ⟨String.toList "xyz\nQUIT\n", [], 2⟩
      (by decide) rfl (by decide) (by decide)⟩

/-- C8: a PUT whose filename holds a path separator or the substring
"..", such as "../etc/passwd", is answered with the lines `ERR` /
`Invalid filename` and the served directory is left completely untouched
— no entry is created, truncated or modified anywhere. -/
theorem claim_C8_put_traversal_rejected (fn : List Byte) (fs : FS) (c : Conn)
    (hbad : '/' ∈ fn ∨ '\\' ∈ fn ∨ ∃ a b, fn = a ++ '.' :: '.' :: b)
    (hb : 2 ≤ c.budget) :
    handleCommand (String.toList "PUT " ++ fn) fs c =
      CmdResult.cont fs
        ⟨c.input, c.output ++ String.toList "ERR\nInvalid filename\n", c.budget - 2⟩ := by
  have hsafe : isSafeFilename fn = false := by
    rcases hbad with h | h | h
    · exact (isSafeFilename_false_iff fn).mpr (Or.inr (Or.inl h))
    · exact (isSafeFilename_false_iff fn).mpr (Or.inr (Or.inr (Or.inl h)))
    · exact (isSafeFilename_false_iff fn).mpr (Or.inr (Or.inr (Or.inr h)))
  rw [handleCommand_put, doPut_unsafe fn fs c hsafe, sendLineC2_eq c _ _ hb]
  have hout : String.toList "ERR" ++ '\n' :: (String.toList "Invalid filename" ++ ['\n']) =
      String.toList "ERR\nInvalid filename\n" := by decide
  rw [hout]

/-- C8 witness: `PUT ../etc/passwd` with declared size 0. -/
theorem claim_C8_witness :
    ('/' ∈ String.toList "../etc/passwd" ∨ '\\' ∈ String.toList "../etc/passwd" ∨
        ∃ a b, String.toList "../etc/passwd" = a ++ '.' :: '.' :: b) ∧
      handleCommand (String.toList "PUT " ++ String.toList "../etc/passwd") []
          ⟨String.toList "0\n", [], 2⟩ =
        CmdResult.cont []
          ⟨String.toList "0\n", String.toList "ERR\nInvalid filename\n", 0⟩ :=
  ⟨Or.inl (by decide),
    claim_C8_put_traversal_rejected (String.toList "../etc/passwd") []
      ⟨String.toList "0\n", [], 2⟩ (Or.inl (by decide)) (by decide)⟩

theorem recvToFile_zero (input : List Byte) : recvToFile input 0 = ([], input, false) := by
  rw [recvToFile]
  simp

theorem sendChunks_nil (c : Conn) : sendChunks c [] = c := by
  rw [sendChunks]
  simp

theorem natToChars_zero : natToChars 0 = ['0'] := by
  rw [natToChars]
  simp
  decide

theorem readLine_zero_line (rest : List Byte) :
    readLine ('0' :: '\n' :: rest) = some (['0'], rest) := by
  simp [readLine]

/-- C4: a PUT with a safe filename and a declared size of 0 reads no
payload bytes, creates (or truncates to) an empty file and answers `OK`;
a GET of an existing empty regular file answers the line `OK`, then the
line `0`, then no payload bytes at all. -/
theorem claim_C4_empty_transfers (fn rest out ginput gout : List Byte)
    (fs gfs : FS) (b gb : Nat)
    (hsafe : isSafeFilename fn = true) :
    (openWriteOk fs fn = true → 1 ≤ b →
       handleCommand (String.toList "PUT " ++ fn) fs ⟨'0' :: '\n' :: rest, out, b⟩ =
         CmdResult.cont (fsSet fs fn (Entry.file []))
           ⟨rest, out ++ String.toList "OK\n", b - 1⟩) ∧
    (fsLookup gfs fn = some (Entry.file []) → 2 ≤ gb →
       handleCommand (String.toList "GET " ++ fn) gfs ⟨ginput, gout, gb⟩ =
         CmdResult.cont gfs ⟨ginput, gout ++ String.toList "OK\n0\n", gb - 2⟩) := by
  constructor
  · intro hopen hb
    rw [handleCommand_put]
    unfold doPut
    simp only [hsafe, Bool.not_true, Bool.false_eq_true, if_false,
      readLine_zero_line]
    have hsz : stoull ['0'] = some 0 := by decide
    simp only [hsz, hopen, if_true, recvToFile_zero]
    simp only [Bool.false_eq_true, if_false]
    rw [sendLineC_eq _ _ (by simpa using hb)]
    have hout : String.toList "OK" ++ ['\n'] = String.toList "OK\n" := by decide
    simp [hout]
  · intro hlk hgb
    rw [handleCommand_get]
    unfold doGet
    simp only [hsafe, Bool.not_true, Bool.false_eq_true, if_false, hlk]
    simp only [List.length_nil, natToChars_zero, sendChunks_nil]
    rw [sendLineC2_eq _ _ _ (by simpa using hgb)]
    have hout : String.toList "OK" ++ '\n' :: (['0'] ++ ['\n']) = String.toList "OK\n0\n" := by
      decide
    simp [hout]

/-- C4 witness: `PUT e.txt` of size 0 into the empty directory, then
`GET e.txt` out of the resulting directory. -/
theorem claim_C4_witness :
    isSafeFilename (String.toList "e.txt") = true ∧
      handleCommand (String.toList "PUT " ++ String.toList "e.txt") []
          ⟨String.toList "0\n", [], 1⟩ =
        CmdResult.cont [(String.toList "e.txt", Entry.file [])]
          ⟨[], String.toList "OK\n", 0⟩ ∧
      handleCommand (String.toList "GET " ++ String.toList "e.txt")
          [(String.toList "e.txt", Entry.file [])] ⟨[], [], 2⟩ =
        CmdResult.cont [(String.toList "e.txt", Entry.file [])]
          ⟨[], String.toList "OK\n0\n", 0⟩ :=
  ⟨by decide,
   (claim_C4_empty_transfers (String.toList "e.txt") [] [] [] []
       [] [(String.toList "e.txt", Entry.file [])] 1 2 (by decide)).1 (by decide) (by decide),
   (claim_C4_empty_transfers (String.toList "e.txt") [] [] [] []
       [] [(String.toList "e.txt", Entry.file [])] 1 2 (by decide)).2 (by decide) (by decide)⟩

theorem fsLookup_fsSet (fs : FS) (n : List Byte) (e : Entry) :
    fsLookup (fsSet fs n e) n = some e := by
  induction fs with
  | nil => simp [fsSet, fsLookup]
  | cons p rest ih =>
      obtain ⟨n0, e0⟩ := p
      rw [fsSet]
      by_cases h : n0 = n
      · rw [if_pos h]
        simp [fsLookup]
      · rw [if_neg h]
        rw [fsLookup, if_neg h]
        exact ih

theorem sendAllC_eq (c : Conn) (bytes : List Byte) (h : 1 ≤ c.budget) :
    sendAllC c bytes = ⟨c.input, c.output ++ bytes, c.budget - 1⟩ := by
  obtain ⟨i, o, b⟩ := c
  cases b with
  | zero => simp at h
  | succ n => simp [sendAllC]

theorem recvToFile_exact_aux : ∀ (n : Nat) (bs rest : List Byte), bs.length ≤ n →
    recvToFile (bs ++ rest) bs.length = (bs, rest, false) := by
  intro n
  induction n with
  | zero =>
      intro bs rest hle
      have hnil : bs = [] := List.eq_nil_of_length_eq_zero (Nat.le_zero.mp hle)
      subst hnil
      simp [recvToFile_zero]
  | succ n ih =>
      intro bs rest hle
      by_cases h0 : bs.length = 0
      · have hnil : bs = [] := List.eq_nil_of_length_eq_zero h0
        subst hnil
        simp [recvToFile_zero]
      · rw [recvToFile]
        simp only [h0, if_false]
        have hck : min bs.length 8192 ≤ bs.length := Nat.min_le_left _ _
        have hck2 : min bs.length 8192 ≤ (bs ++ rest).length := by
          simp only [List.length_append]
          omega
        have hrecv : recvExact (bs ++ rest) (min bs.length 8192) =
            some ((bs ++ rest).take (min bs.length 8192),
              (bs ++ rest).drop (min bs.length 8192)) := by
          unfold recvExact
          rw [if_pos hck2]
        simp only [hrecv]
        rw [List.take_append_of_le_length hck, List.drop_append_of_le_length hck]
        have hlen : (bs.drop (min bs.length 8192)).length = bs.length - min bs.length 8192 := by
          simp
        have hrec := ih (bs.drop (min bs.length 8192)) rest (by simp; omega)
        rw [hlen] at hrec
        rw [hrec]
        simp [List.take_append_drop]

theorem recvToFile_exact (bs rest : List Byte) :
    recvToFile (bs ++ rest) bs.length = (bs, rest, false) :=
  recvToFile_exact_aux bs.length bs rest (Nat.le_refl _)

theorem sendChunks_output_aux : ∀ (n : Nat) (data : List Byte) (c : Conn),
    data.length ≤ n → data.length ≤ c.budget →
    (sendChunks c data).output = c.output ++ data := by
  intro n
  induction n with
  | zero =>
      intro data c hle _
      have hnil : data = [] := List.eq_nil_of_length_eq_zero (Nat.le_zero.mp hle)
      subst hnil
      simp [sendChunks_nil]
  | succ n ih =>
      intro data c hle hbud
      by_cases h : data = []
      · subst h
        simp [sendChunks_nil]
      · have hp : 0 < data.length := List.length_pos.mpr h
        have hcs : canSend c = true := by
          simp only [canSend, decide_eq_true_eq]
          omega
        rw [sendChunks]
        simp only [h, dite_false, hcs, if_true]
        rw [sendAllC_eq c _ (by omega)]
        rw [ih (data.drop 8192) _ (by simp; omega) (by simp; omega)]
        simp [List.append_assoc, List.take_append_drop]

/-- C7: a successful PUT of payload `bs` under a safe filename stores
exactly `bs` as that file's content, and an immediately following GET of
the same filename declares exactly the uploaded length and streams back
exactly the uploaded bytes. -/
theorem claim_C7_roundtrip (fn bs sizeLine rest pinput out ginput gout : List Byte)
    (fs : FS) (b gb : Nat)
    (hsafe : isSafeFilename fn = true)
    (hopen : openWriteOk fs fn = true)
    (hline : readLine pinput = some (sizeLine, bs ++ rest))
    (hsize : stoull sizeLine = some bs.length)
    (hb : 1 ≤ b) (hgb : 2 + bs.length ≤ gb) :
    handleCommand (String.toList "PUT " ++ fn) fs ⟨pinput, out, b⟩ =
      CmdResult.cont (fsSet fs fn (Entry.file bs))
        ⟨rest, out ++ String.toList "OK\n", b - 1⟩ ∧
    fsLookup (fsSet fs fn (Entry.file bs)) fn = some (Entry.file bs) ∧
    (handleCommand (String.toList "GET " ++ fn) (fsSet fs fn (Entry.file bs))
        ⟨ginput, gout, gb⟩).dirFs = fsSet fs fn (Entry.file bs) ∧
    (handleCommand (String.toList "GET " ++ fn) (fsSet fs fn (Entry.file bs))
        ⟨ginput, gout, gb⟩).conn.output =
      gout ++ String.toList "OK\n" ++ natToChars bs.length ++ '\n' :: bs := by
  refine ⟨?_, fsLookup_fsSet fs fn (Entry.file bs), ?_, ?_⟩
  · rw [handleCommand_put]
    unfold doPut
    simp only [hsafe, Bool.not_true, Bool.false_eq_true, if_false, hline, hsize,
      hopen, if_true, recvToFile_exact]
    rw [sendLineC_eq _ _ (by simpa using hb)]
    have hout : String.toList "OK" ++ ['\n'] = String.toList "OK\n" := by decide
    simp [hout]
  · rw [handleCommand_get]
    unfold doGet
    simp only [hsafe, Bool.not_true, Bool.false_eq_true, if_false,
      fsLookup_fsSet fs fn (Entry.file bs)]
    simp [CmdResult.dirFs]
  · rw [handleCommand_get]
    unfold doGet
    simp only [hsafe, Bool.not_true, Bool.false_eq_true, if_false,
      fsLookup_fsSet fs fn (Entry.file bs)]
    simp only [CmdResult.conn]
    rw [sendLineC2_eq _ _ _ (by simp; omega)]
    rw [sendChunks_output_aux bs.length bs _ (Nat.le_refl _) (by simp; omega)]
    have hok : String.toList "OK" = ['O', 'K'] := rfl
    have hok2 : String.toList "OK\n" = ['O', 'K', '\n'] := rfl
    simp [hok, hok2, List.append_assoc]

/-- C7 witness: upload "HELLO" as f.txt, then download it. -/
theorem claim_C7_witness :
    isSafeFilename (String.toList "f.txt") = true ∧
      stoull (String.toList "5") = some (String.toList "HELLO").length ∧
      handleCommand (String.toList "PUT " ++ String.toList "f.txt") []
          ⟨String.toList "5\nHELLO", [], 1⟩ =
        CmdResult.cont [(String.toList "f.txt", Entry.file (String.toList "HELLO"))]
          ⟨[], String.toList "OK\n", 0⟩ ∧
      (handleCommand (String.toList "GET " ++ String.toList "f.txt")
          [(String.toList "f.txt", Entry.file (String.toList "HELLO"))]
          ⟨[], [], 7⟩).conn.output =
        [] ++ String.toList "OK\n" ++ natToChars (String.toList "HELLO").length ++
          '\n' :: String.toList "HELLO" :=
  ⟨by decide, by decide,
   (claim_C7_roundtrip (String.toList "f.txt") (String.toList "HELLO") (String.toList "5")
      [] (String.toList "5\nHELLO") [] [] [] [] 1 7 (by decide) (by decide) rfl (by decide)
      (by decide) (by decide)).1,
   (claim_C7_roundtrip (String.toList "f.txt") (String.toList "HELLO") (String.toList "5")
      [] (String.toList "5\nHELLO") [] [] [] [] 1 7 (by decide) (by decide) rfl (by decide)
      (by decide) (by decide)).2.2.2⟩

theorem startsWith_iff : ∀ (p l : List Byte), startsWith p l = true ↔ ∃ t, l = p ++ t := by
  intro p
  induction p with
  | nil =>
      intro l
      simp [startsWith]
  | cons x ps ih =>
      intro l
      cases l with
      | nil =>
          rw [startsWith]
          constructor
          · intro h
            exact absurd h (by simp)
          · rintro ⟨t, ht⟩
            exact absurd ht (by simp)
      | cons c cs =>
          rw [startsWith]
          constructor
          · intro h
            rcases (Bool.and_eq_true _ _).mp h with ⟨h1, h2⟩
            simp only [decide_eq_true_eq] at h1
            obtain ⟨t, ht⟩ := (ih cs).mp h2
            exact ⟨t, by simp [h1, ht]⟩
          · rintro ⟨t, ht⟩
            simp only [List.cons_append, List.cons.injEq] at ht
            simp [ht.1, (ih cs).mpr ⟨t, ht.2⟩]

theorem handleCommand_quit (line : List Byte) (fs : FS) (c : Conn)
    (hq : startsWith (String.toList "QUIT") line = true) :
    handleCommand line fs c = CmdResult.stop fs c := by
  obtain ⟨t, ht⟩ := (startsWith_iff _ _).mp hq
  subst ht
  show handleCommand ('Q' :: 'U' :: 'I' :: 'T' :: t) fs c = CmdResult.stop fs c
  unfold handleCommand
  simp [startsWith]

theorem session_quit (fs : FS) (c : Conn) (line rest : List Byte)
    (hr : readLine c.input = some (line, rest))
    (hq : startsWith (String.toList "QUIT") line = true) :
    session fs c = (fs, { c with input := rest }) := by
  rw [session]
  split
  · rename_i heq
    rw [hr] at heq
    exact absurd heq (by simp)
  · rename_i line2 rest2 heq
    rw [hr] at heq
    simp only [Option.some.injEq, Prod.mk.injEq] at heq
    obtain ⟨h1, h2⟩ := heq
    subst h1
    subst h2
    split
    · rename_i fs1 c1 heq2
      rw [handleCommand_quit line fs _ hq] at heq2
      simp only [CmdResult.stop.injEq] at heq2
      rw [← heq2.1, ← heq2.2]
    · rename_i fs1 c1 heq2
      rw [handleCommand_quit line fs _ hq] at heq2
      exact absurd heq2 (by simp)

/-- C9: `handle_client` closes the client connection on every way out of
its session loop — the result of any session, whatever the stream, the
directory or the point at which reads or sends start failing, carries the
unconditional close — and when the first command line read is a QUIT the
loop ends with no response byte sent and the directory untouched. -/
theorem claim_C9_close_on_every_exit (fs : FS) (c : Conn) :
    (handle_client fs c).closed = true ∧
    (∀ line rest, readLine c.input = some (line, rest) →
       startsWith (String.toList "QUIT") line = true →
       handle_client fs c =
         { fs := fs, conn := { c with input := rest }, closed := true }) := by
  constructor
  · rfl
  · intro line rest hr hq
    unfold handle_client
    rw [session_quit fs c line rest hr hq]

/-- C9 witness: a session whose first line is `QUIT` closes at once with
no output; the remainder of the stream is left unread. -/
theorem claim_C9_witness :
    (handle_client [] ⟨String.toList "QUIT\nLIST\n", [], 5⟩).closed = true ∧
      handle_client [] ⟨String.toList "QUIT\nLIST\n", [], 5⟩ =
        { fs := [], conn := ⟨String.toList "LIST\n", [], 5⟩, closed := true } :=
  ⟨(claim_C9_close_on_every_exit [] ⟨String.toList "QUIT\nLIST\n", [], 5⟩).1,
   (claim_C9_close_on_every_exit [] ⟨String.toList "QUIT\nLIST\n", [], 5⟩).2
     (String.toList "QUIT") (String.toList "LIST\n") rfl (by decide)⟩

/-- C10: dispatch is by prefix match in source order: every line starting
with "LIST" (such as "LISTX") is handled as LIST, every line starting
with "QUIT" ends the session, and only a line matching none of the four
prefixes "LIST", "GET ", "PUT ", "QUIT" is answered with `ERR` +
`Unknown command`. -/
theorem claim_C10_prefix_dispatch (line : List Byte) (fs : FS) (c : Conn) :
    (startsWith (String.toList "LIST") line = true →
       handleCommand line fs c = doList fs c) ∧
    (startsWith (String.toList "QUIT") line = true →
       handleCommand line fs c = CmdResult.stop fs c) ∧
    (startsWith (String.toList "LIST") line = false →
     startsWith (String.toList "GET ") line = false →
     startsWith (String.toList "PUT ") line = false →
     startsWith (String.toList "QUIT") line = false →
     2 ≤ c.budget →
       handleCommand line fs c =
         CmdResult.cont fs
           ⟨c.input, c.output ++ String.toList "ERR\nUnknown command\n", c.budget - 2⟩) := by
  refine ⟨?_, handleCommand_quit line fs c, ?_⟩
  · intro h
    unfold handleCommand
    rw [h]
    simp
  · intro h1 h2 h3 h4 hb
    unfold handleCommand
    rw [h1, h2, h3, h4]
    simp only [Bool.false_eq_true, if_false]
    rw [sendLineC2_eq c _ _ hb]
    have hout : String.toList "ERR" ++ '\n' :: (String.toList "Unknown command" ++ ['\n']) =
        String.toList "ERR\nUnknown command\n" := by decide
    rw [hout]

/-- C10 witness: "LISTX" dispatches as LIST, "QUITXYZ" ends the session,
and "HELLO" gets the unknown-command error. -/
theorem claim_C10_witness :
    handleCommand (String.toList "LISTX") [] ⟨[], [], 5⟩ = doList [] ⟨[], [], 5⟩ ∧
      handleCommand (String.toList "QUITXYZ") [] ⟨[], [], 5⟩ =
        CmdResult.stop [] ⟨[], [], 5⟩ ∧
      handleCommand (String.toList "HELLO") [] ⟨[], [], 5⟩ =
        CmdResult.cont [] ⟨[], String.toList "ERR\nUnknown command\n", 3⟩ :=
  ⟨(claim_C10_prefix_dispatch (String.toList "LISTX") [] ⟨[], [], 5⟩).1 (by decide),
   (claim_C10_prefix_dispatch (String.toList "QUITXYZ") [] ⟨[], [], 5⟩).2.1 (by decide),
   (claim_C10_prefix_dispatch (String.toList "HELLO") [] ⟨[], [], 5⟩).2.2
     (by decide) (by decide) (by decide) (by decide) (by decide)⟩
